import Mathlib

/-!
Verification of the timing-scheduler specification against the repository's
debounce/throttle hooks.

Source of truth:
  src/src/components/DebounceThrottleExamples.jsx
    useDebounce (lines 57-71), useThrottle (lines 74-83)
  src/src/components/CustomHooksExamples.jsx
    useWindowSize inline debounce (lines 373-393)

Time is modelled in milliseconds as Nat (Date.now() is a monotone clock for
the purposes of these hooks); the configured delay is modelled as Int so that
negative configurations, which the source never validates, are expressible.
-/

namespace Spec2Proof

/-! ## Throttle model

JavaScript source, DebounceThrottleExamples.jsx lines 74-83:

  function useThrottle(callback, delay) \x7b
    const lastRun = React.useRef(Date.now());
    return useCallback(() => \x7b
      if (Date.now() - lastRun.current >= delay) \x7b
        callback();
        lastRun.current = Date.now();
      \x7d
    \x7d, [callback, delay]);
  \x7d

The ref holds one field, the timestamp of the last effective run, and it is
initialised to Date.now() at instantiation, not to an "always ready" sentinel.
A request executes exactly when the current time minus that timestamp is at
least the delay; otherwise it is dropped and the state is untouched.  There is
no setTimeout in this hook at all: nothing is ever scheduled for later.
-/

/-- Throttle state: the single mutable cell `lastRun.current`. -/
structure ThrottleState where
  lastRun : Nat
  deriving Repr, DecidableEq

/-- Instantiation: `useRef(Date.now())` records the mount time. -/
def throttleInit (now : Nat) : ThrottleState := ⟨now⟩

/-- One `request()` call at time `now`: executes the callback and records the
fire time when `now - lastRun ≥ delay`, otherwise drops the request leaving
the state untouched.  Returns the new state and whether the callback ran. -/
def throttleRequest (delay : Int) (s : ThrottleState) (now : Nat) :
    ThrottleState × Bool :=
  if delay ≤ (now : Int) - (s.lastRun : Int) then (⟨now⟩, true) else (s, false)

/-- A sequence of `request()` calls at the given times; returns the final
state and the list of times at which the callback actually executed. -/
def throttleRun (delay : Int) (s : ThrottleState) : List Nat → ThrottleState × List Nat
  | [] => (s, [])
  | t :: ts =>
    let r1 := throttleRequest delay s t
    let r2 := throttleRun delay r1.1 ts
    (r2.1, if r1.2 then t :: r2.2 else r2.2)

/-- The same `request()` body, but with the wrapped callback allowed to throw:
`callback()` runs before `lastRun.current = Date.now()`, and nothing in the
hook catches an exception. -/
def throttleRequestE {ε : Type} (delay : Int) (callback : Except ε Unit)
    (s : ThrottleState) (now : Nat) : Except ε (ThrottleState × Bool) :=
  if delay ≤ (now : Int) - (s.lastRun : Int) then
    match callback with
    | Except.ok _ => Except.ok (⟨now⟩, true)
    | Except.error e => Except.error e
  else Except.ok (s, false)

/-- Checked constructor following the specification's words (section 7):
delay < 0 fails fast at construction time.  The source constructor
`throttleInit` performs no such check; this definition exists only to be
compared with it. -/
def throttleInitChecked (delay : Int) (now : Nat) : Except String ThrottleState :=
  if delay < 0 then Except.error "negative delay" else Except.ok ⟨now⟩

/-! ### Basic lemmas about the throttle -/

theorem throttleRequest_drop (delay : Int) (s : ThrottleState) (now : Nat)
    (h : (now : Int) - (s.lastRun : Int) < delay) :
    throttleRequest delay s now = (s, false) := by
  simp [throttleRequest, not_le.mpr h]

theorem throttleRequest_fire (delay : Int) (s : ThrottleState) (now : Nat)
    (h : delay ≤ (now : Int) - (s.lastRun : Int)) :
    throttleRequest delay s now = (⟨now⟩, true) := by
  simp [throttleRequest, h]

/-- A run in which every request falls short of the window fires nothing and
leaves the state untouched. -/
theorem throttleRun_all_drop (delay : Int) (s : ThrottleState) (ts : List Nat)
    (h : ∀ u ∈ ts, (u : Int) - (s.lastRun : Int) < delay) :
    throttleRun delay s ts = (s, []) := by
  induction ts with
  | nil => rfl
  | cons t ts ih =>
    have ht := h t (List.mem_cons_self t ts)
    have hrest : ∀ u ∈ ts, (u : Int) - (s.lastRun : Int) < delay :=
      fun u hu => h u (List.mem_cons_of_mem t hu)
    simp [throttleRun, throttleRequest_drop delay s t ht, ih hrest]

/-- The first execution of any run happens no earlier than `lastRun + delay`. -/
theorem throttleRun_head_fire (delay : Int) (ts : List Nat) (s : ThrottleState) :
    ∀ u ∈ (throttleRun delay s ts).2.head?, delay ≤ (u : Int) - (s.lastRun : Int) := by
  induction ts generalizing s with
  | nil => intro u hu; simp [throttleRun] at hu
  | cons t ts ih =>
    intro u hu
    by_cases h : delay ≤ (t : Int) - (s.lastRun : Int)
    · simp [throttleRun, throttleRequest_fire delay s t h] at hu
      subst hu; exact h
    · have h' : (t : Int) - (s.lastRun : Int) < delay := not_le.mp h
      simp [throttleRun, throttleRequest_drop delay s t h'] at hu
      exact ih s u (by simpa using hu)

/-! ### Throttle claim theorems -/

/-- C1 counterexample: the claim predicts that a rapid burst of requests
produces exactly two executions, one leading and one trailing.  On the code,
with the invoker instantiated at t=0, delay=100 and requests at t=100, 110,
120, 130, the only execution is the leading one at t=100: the requests inside
the window are dropped outright, never coalesced into a trailing call. -/
theorem throttle_no_trailing_cex :
    (throttleRun 100 (throttleInit 0) [100, 110, 120, 130]).2 = [100] ∧
    (throttleRun 100 (throttleInit 0) [100, 110, 120, 130]).2.length ≠ 2 := by
  refine ⟨by decide, by decide⟩

/-- C1 (amended): when request() calls continue arriving within delay ms of a
leading execution, every one of them is dropped and the state is untouched; no
trailing execution is scheduled, so a rapid burst produces exactly one
execution, the leading one, using the first request's arguments. -/
theorem throttle_burst_leading_only (delay : Int) (s : ThrottleState)
    (t : Nat) (ts : List Nat)
    (hfire : delay ≤ (t : Int) - (s.lastRun : Int))
    (hburst : ∀ u ∈ ts, (u : Int) - (t : Int) < delay) :
    (throttleRun delay s (t :: ts)).2 = [t] := by
  have hdrop : ∀ u ∈ ts, (u : Int) - ((⟨t⟩ : ThrottleState).lastRun : Int) < delay := by
    simpa using hburst
  simp [throttleRun, throttleRequest_fire delay s t hfire,
    throttleRun_all_drop delay ⟨t⟩ ts hdrop]

/-- Witness for the amended C1 at the spec's burst: delay=100, instantiation
at t=0, requests at t=100, 110, 120, 130 produce the single execution [100]. -/
theorem throttle_burst_leading_only_witness :
    (throttleRun 100 (throttleInit 0) [100, 110, 120, 130]).2 = [100] :=
  throttle_burst_leading_only 100 (throttleInit 0) 100 [110, 120, 130]
    (by decide) (by decide)

/-- C2 counterexample: the claim says the very first request() after
instantiation executes immediately for every delay > 0 and every
instantiation time.  On the code, lastRun is initialised to the instantiation
time, so with instantiation at t=0, delay=100, a first request at t=50 is
dropped: no execution and the state is unchanged. -/
theorem throttle_first_request_dropped_cex :
    throttleRequest 100 (throttleInit 0) 50 = (throttleInit 0, false) := by
  decide

/-- C2 (amended): the first request() after instantiation executes the wrapped
action immediately if and only if at least delay ms have elapsed since
instantiation (lastRun starts at the instantiation time); when it executes, it
does so synchronously, exactly once, and records the fire time. -/
theorem throttle_first_request_iff (delay : Int) (t0 now : Nat) :
    ((throttleRequest delay (throttleInit t0) now).2 = true ↔
      delay ≤ (now : Int) - (t0 : Int)) ∧
    (delay ≤ (now : Int) - (t0 : Int) →
      throttleRequest delay (throttleInit t0) now = (⟨now⟩, true)) := by
  constructor
  · by_cases h : delay ≤ (now : Int) - (t0 : Int)
    · simp [throttleRequest_fire delay (throttleInit t0) now h, h]
    · simp [throttleRequest_drop delay (throttleInit t0) now (not_le.mp h), h]
  · intro h
    exact throttleRequest_fire delay (throttleInit t0) now h

/-- Witness for the amended C2: a full window after instantiation, the first
request executes immediately and records its time. -/
theorem throttle_first_request_iff_witness :
    throttleRequest 100 (throttleInit 0) 100 = (⟨100⟩, true) :=
  (throttle_first_request_iff 100 0 100).2 (by decide)

/-- Every pair of consecutive executions in any run is at least delay apart. -/
theorem throttleRun_chain (delay : Int) (ts : List Nat) (s : ThrottleState) :
    List.Chain' (fun a b : Nat => delay ≤ (b : Int) - (a : Int))
      (throttleRun delay s ts).2 := by
  induction ts generalizing s with
  | nil => simp [throttleRun]
  | cons t ts ih =>
    by_cases h : delay ≤ (t : Int) - (s.lastRun : Int)
    · simp only [throttleRun, throttleRequest_fire delay s t h, if_true]
      rw [List.chain'_cons']
      exact ⟨fun u hu => throttleRun_head_fire delay ts ⟨t⟩ u hu, ih ⟨t⟩⟩
    · simp only [throttleRun, throttleRequest_drop delay s t (not_le.mp h),
        Bool.false_eq_true, if_false]
      exact ih s

/-- C3: for every sequence of request() calls, any two consecutive effective
executions are at least delay apart; and a request arriving exactly delay ms
after the recorded last execution executes immediately, with no suppression at
the boundary. -/
theorem throttle_window_enforcement (delay : Int) (s : ThrottleState)
    (ts : List Nat) (now : Nat)
    (hb : (now : Int) - (s.lastRun : Int) = delay) :
    List.Chain' (fun a b : Nat => delay ≤ (b : Int) - (a : Int))
      (throttleRun delay s ts).2 ∧
    (throttleRequest delay s now).2 = true := by
  refine ⟨throttleRun_chain delay ts s, ?_⟩
  simp [throttleRequest_fire delay s now (le_of_eq hb.symm)]

/-- Witness for C3: executions of the run [0, 50, 100, 260] from instantiation
far in the past are spaced at least 100 apart, and a request exactly at the
boundary fires. -/
theorem throttle_window_enforcement_witness :
    List.Chain' (fun a b : Nat => (100 : Int) ≤ (b : Int) - (a : Int))
      (throttleRun 100 (throttleInit 0) [100, 150, 200, 360]).2 ∧
    (throttleRequest 100 (throttleInit 0) 100).2 = true :=
  throttle_window_enforcement 100 (throttleInit 0) [100, 150, 200, 360] 100
    (by decide)

/-- C10: a dropped request leaves the recorded last-fire time unchanged (any
run of dropped requests leaves the whole state untouched), so a request
arriving a full window after the last effective execution always executes,
regardless of how many requests were dropped in between. -/
theorem throttle_drops_preserve_window (delay : Int) (s : ThrottleState)
    (ts : List Nat) (now : Nat)
    (hdrop : ∀ u ∈ ts, (u : Int) - (s.lastRun : Int) < delay)
    (hb : delay ≤ (now : Int) - (s.lastRun : Int)) :
    (throttleRun delay s ts).1 = s ∧
    (throttleRequest delay (throttleRun delay s ts).1 now).2 = true := by
  have h1 := throttleRun_all_drop delay s ts hdrop
  refine ⟨by rw [h1], ?_⟩
  rw [h1]
  simp [throttleRequest_fire delay s now hb]

/-- Witness for C10: three dropped requests at t=10, 20, 30 leave the state
at its instantiation value, and the request at t=100 executes. -/
theorem throttle_drops_preserve_window_witness :
    (throttleRun 100 (throttleInit 0) [10, 20, 30]).1 = throttleInit 0 ∧
    (throttleRequest 100 (throttleRun 100 (throttleInit 0) [10, 20, 30]).1 100).2
      = true :=
  throttle_drops_preserve_window 100 (throttleInit 0) [10, 20, 30] 100
    (by decide) (by decide)

/-! ## Debounce model, value level

JavaScript source, DebounceThrottleExamples.jsx lines 57-71:

  function useDebounce(value, delay) \x7b
    const [debouncedValue, setDebouncedValue] = useState(value);
    useEffect(() => \x7b
      const handler = setTimeout(() => \x7b setDebouncedValue(value); \x7d, delay);
      return () => \x7b clearTimeout(handler); \x7d;
    \x7d, [value, delay]);
    return debouncedValue;
  \x7d

The hook's state is the published output plus at most one pending timer; the
timer captures the value current at scheduling time.  Each change of the
input runs the cleanup of the previous effect (clearTimeout) and schedules a
fresh timer for now + delay, so the pending slot is replaced wholesale.
An emission is an invocation of the scheduled setter, recorded as the pair
of fire time and carried value. -/
structure DebounceState (α : Type) where
  output : α
  pending : Option (Nat × α)
  deriving Repr, DecidableEq

/-- First render: useState(value) publishes the initial value, no effect has
run yet, so nothing is pending. -/
def debounceInit {α : Type} (v : α) : DebounceState α := ⟨v, none⟩

/-- The effect body for input v at time t: cancel-and-replace the pending
timer with one firing at t + delay carrying v.  The published output is not
touched here. -/
def debounceObserve {α : Type} (delay t : Nat) (v : α) (s : DebounceState α) :
    DebounceState α :=
  ⟨s.output, some (t + delay, v)⟩

/-- State right after mount: the initial render followed by the mount run of
the effect, which schedules a timer carrying the initial value. -/
def debounceMount {α : Type} (delay t0 : Nat) (v : α) : DebounceState α :=
  debounceObserve delay t0 v (debounceInit v)

/-- Let the clock advance to time t: a pending timer due at or before t fires,
publishing its value and emitting once. -/
def debounceCatchUp {α : Type} (t : Nat) (s : DebounceState α) :
    DebounceState α × List (Nat × α) :=
  match s.pending with
  | some p => if p.1 ≤ t then (⟨p.2, none⟩, [p]) else (s, [])
  | none => (s, [])

/-- Let the clock run to quiescence: the pending timer, if any, fires. -/
def debounceFlush {α : Type} (s : DebounceState α) :
    DebounceState α × List (Nat × α) :=
  match s.pending with
  | some p => (⟨p.2, none⟩, [p])
  | none => (s, [])

/-- Process a time-ordered list of input changes, then run to quiescence;
returns the final state and the list of emissions in order. -/
def debounceRun {α : Type} (delay : Nat) (s : DebounceState α) :
    List (Nat × α) → DebounceState α × List (Nat × α)
  | [] => debounceFlush s
  | (t, v) :: rest =>
    let r1 := debounceCatchUp t s
    let r2 := debounceRun delay (debounceObserve delay t v r1.1) rest
    (r2.1, r1.2 ++ r2.2)

/-- Body of the scheduled timer callback with the output setter made
explicit: the source timer body is exactly one uncaught call,
setDebouncedValue(value). -/
def debounceTimerFire {α ε : Type} (setOutput : α → Except ε Unit) (v : α) :
    Except ε Unit :=
  setOutput v

/-! ### Debounce claim lemmas -/

theorem debounceCatchUp_skip {α : Type} (t : Nat) (s : DebounceState α)
    (h : ∀ p ∈ s.pending, t < p.1) : debounceCatchUp t s = (s, []) := by
  cases hp : s.pending with
  | none => simp [debounceCatchUp, hp]
  | some p =>
    have := h p (by simp [hp])
    simp [debounceCatchUp, hp, not_le.mpr this]

/-- Emitted values never resurrect a superseded input: the values emitted by
a run form a sublist of the pending value, if any, followed by the input
values in order. -/
theorem debounce_no_stale {α : Type} (delay : Nat) (inputs : List (Nat × α))
    (s : DebounceState α) :
    ((debounceRun delay s inputs).2.map Prod.snd).Sublist
      ((s.pending.elim [] fun p => [p.2]) ++ inputs.map Prod.snd) := by
  induction inputs generalizing s with
  | nil =>
    cases hp : s.pending with
    | none => simp [debounceRun, debounceFlush, hp]
    | some p => simp [debounceRun, debounceFlush, hp]
  | cons iv rest ih =>
    obtain ⟨t, v⟩ := iv
    cases hp : s.pending with
    | none =>
      have h2 := ih (debounceObserve delay t v s)
      simp only [debounceObserve, Option.elim] at h2
      simp only [debounceRun, debounceCatchUp, hp, Option.elim, List.nil_append,
        List.map_cons, List.map_append]
      exact h2
    | some p =>
      by_cases hfire : p.1 ≤ t
      · have h2 := ih (debounceObserve delay t v ⟨p.2, none⟩)
        simp only [debounceObserve, Option.elim] at h2
        simp only [debounceRun, debounceCatchUp, hp, hfire, if_true, Option.elim,
          List.map_cons, List.map_append, List.map, List.cons_append, List.nil_append]
        exact List.Sublist.cons₂ p.2 h2
      · have h2 := ih (debounceObserve delay t v s)
        simp only [debounceObserve, Option.elim] at h2
        simp only [debounceRun, debounceCatchUp, hp, hfire, if_false, Option.elim,
          List.map_cons, List.map_append, List.nil_append, List.cons_append]
        exact List.Sublist.cons p.2 h2

/-- Unfolding a run whose first input arrives before any pending timer is
due: the pending timer is silently replaced. -/
theorem debounceRun_cons_skip {α : Type} (delay t : Nat) (v : α)
    (rest : List (Nat × α)) (s : DebounceState α)
    (hpend : ∀ p ∈ s.pending, t < p.1) :
    debounceRun delay s ((t, v) :: rest) =
      debounceRun delay (debounceObserve delay t v s) rest := by
  simp [debounceRun, debounceCatchUp_skip t s hpend]

/-- A busy burst followed by quiet settles once, on the last value: if every
input of the burst arrives before the previously scheduled timer fires, the
run emits exactly one value, the most recent one, a full delay after it. -/
theorem debounce_burst_settles {α : Type} (delay : Nat) (t : Nat) (v : α)
    (rest : List (Nat × α)) (s : DebounceState α)
    (hpend : ∀ p ∈ s.pending, t < p.1)
    (hburst : List.Chain' (fun a b : Nat × α => b.1 < a.1 + delay) ((t, v) :: rest)) :
    debounceRun delay s ((t, v) :: rest) =
      (⟨(((t, v) :: rest).getLast (by simp)).2, none⟩,
        [((((t, v) :: rest).getLast (by simp)).1 + delay,
          (((t, v) :: rest).getLast (by simp)).2)]) := by
  induction rest generalizing s t v with
  | nil =>
    simp [debounceRun, debounceCatchUp_skip t s hpend, debounceObserve,
      debounceFlush]
  | cons iv rest ih =>
    obtain ⟨t2, v2⟩ := iv
    have hgap : t2 < t + delay := (List.chain'_cons.mp hburst).1
    have hchain : List.Chain' (fun a b : Nat × α => b.1 < a.1 + delay)
        ((t2, v2) :: rest) := (List.chain'_cons.mp hburst).2
    have hpend2 : ∀ p ∈ (debounceObserve delay t v s).pending, t2 < p.1 := by
      intro p hp
      simp [debounceObserve] at hp
      simp [← hp, hgap]
    have hrec := ih t2 v2 (debounceObserve delay t v s) hpend2 hchain
    rw [debounceRun_cons_skip delay t v ((t2, v2) :: rest) s hpend, hrec]
    simp [List.getLast_cons]

/-! ### Debounce and error-handling claim theorems -/

/-- C4: for a busy burst of inputs (each arriving before the previously
scheduled timer is due) followed by quiet, the run produces exactly one
emission, a full delay after the last input and carrying the last input's
value, and the settled output is that value; moreover, for every start state
and every input sequence, the emitted values are a sublist of the pending
value followed by the input values in order, so emissions respect input order
and no stale value is ever emitted after a newer one superseded it.  In
particular, inputs a at t=0 (mount), b at t=100, c at t=150 with delay=200
emit exactly once, at t=350, with value c (see the witness). -/
theorem debounce_coalescing {α : Type} (delay : Nat) (t : Nat) (v : α)
    (rest : List (Nat × α)) (s : DebounceState α)
    (hpend : ∀ p ∈ s.pending, t < p.1)
    (hburst : List.Chain' (fun a b : Nat × α => b.1 < a.1 + delay) ((t, v) :: rest)) :
    (debounceRun delay s ((t, v) :: rest)).2 =
      [((((t, v) :: rest).getLast (by simp)).1 + delay,
        (((t, v) :: rest).getLast (by simp)).2)] ∧
    (debounceRun delay s ((t, v) :: rest)).1.output =
      (((t, v) :: rest).getLast (by simp)).2 ∧
    ∀ (s' : DebounceState α) (inputs : List (Nat × α)),
      ((debounceRun delay s' inputs).2.map Prod.snd).Sublist
        ((s'.pending.elim [] fun p => [p.2]) ++ inputs.map Prod.snd) := by
  refine ⟨?_, ?_, fun s' inputs => debounce_no_stale delay inputs s'⟩
  · rw [debounce_burst_settles delay t v rest s hpend hburst]
  · rw [debounce_burst_settles delay t v rest s hpend hburst]

/-- Witness for C4 at the spec's trace: value 10 at mount t=0, 20 at t=100,
30 at t=150, delay 200; the single emission is (350, 30) and the settled
output is 30. -/
theorem debounce_coalescing_witness :
    (debounceRun 200 (debounceMount 200 0 10) [(100, 20), (150, 30)]).2 =
      [(350, 30)] ∧
    (debounceRun 200 (debounceMount 200 0 10) [(100, 20), (150, 30)]).1.output
      = 30 := by
  have h := debounce_coalescing 200 100 20 [(150, 30)] (debounceMount 200 0 10)
    (by
      intro p hp
      have hp' : (200, 10) = p := by
        simpa [debounceMount, debounceObserve, debounceInit] using hp
      subst hp'
      norm_num)
    (by norm_num [List.chain'_cons])
  refine ⟨?_, ?_⟩
  · rw [h.1]; decide
  · rw [h.2.1]; decide

/-- C9: immediately after instantiation with initial value v the published
output is already v with no timer having fired (first render leaves nothing
pending), and it is still v right after the mount effect schedules the first
timer. -/
theorem debounce_initial_output {α : Type} (delay t0 : Nat) (v : α) :
    (debounceInit v).output = v ∧ (debounceInit v).pending = none ∧
    (debounceMount delay t0 v).output = v :=
  ⟨rfl, rfl, rfl⟩

/-- C8: neither hook catches consumer exceptions.  A throwing wrapped action
makes the throttled request() propagate exactly that error (and the last-run
time is not even updated, since the assignment follows the call), and the
debounce timer body is a single uncaught call to the output setter, so a
throwing setter propagates its error unchanged. -/
theorem scheduler_propagates_errors {α ε : Type} (delay : Int)
    (s : ThrottleState) (now : Nat) (e : ε)
    (hfire : delay ≤ (now : Int) - (s.lastRun : Int))
    (setOutput : α → Except ε Unit) (v : α)
    (hsub : setOutput v = Except.error e) :
    throttleRequestE delay (Except.error e) s now = Except.error e ∧
    debounceTimerFire setOutput v = Except.error e := by
  refine ⟨?_, hsub⟩
  simp [throttleRequestE, hfire]

/-- Witness for C8 with a concrete error value. -/
theorem scheduler_propagates_errors_witness :
    throttleRequestE 100 (Except.error 7) (throttleInit 0) 100 =
      (Except.error 7 : Except Nat (ThrottleState × Bool)) ∧
    debounceTimerFire (fun _ : Nat => (Except.error 7 : Except Nat Unit)) 5 =
      Except.error 7 :=
  scheduler_propagates_errors 100 (throttleInit 0) 100 7 (by decide)
    (fun _ => Except.error 7) 5 rfl

/-- C7 counterexample: the claim says construction with delay < 0 is rejected
immediately.  On the code there is no validation at all: the invoker built
with delay = -1 exists and its very first request executes, in contrast with
the specification-side checked constructor, which does reject. -/
theorem construction_no_failfast_cex :
    (throttleRequest (-1) (throttleInit 0) 0).2 = true ∧
    throttleInitChecked (-1) 0 = Except.error "negative delay" :=
  ⟨by decide, rfl⟩

/-- C7 (amended): neither hook validates delay; construction with delay < 0
succeeds silently, and for the throttle the window test is then vacuous, so
every request executes (the debounce hands the negative delay to the host
timer facility unchanged; any clamping happens in the host, not here). -/
theorem construction_accepts_negative_delay (delay : Int) (t0 now : Nat)
    (hneg : delay < 0) (hmono : t0 ≤ now) :
    (throttleRequest delay (throttleInit t0) now).2 = true := by
  have h0 : (t0 : Int) ≤ (now : Int) := Int.ofNat_le.mpr hmono
  have h : delay ≤ (now : Int) - (t0 : Int) := by omega
  rw [throttleRequest_fire delay (throttleInit t0) now h]

/-- Witness for the amended C7: delay = -5, instantiation and first request
both at t=3; the request executes. -/
theorem construction_accepts_negative_delay_witness :
    (throttleRequest (-5) (throttleInit 3) 3).2 = true :=
  construction_accepts_negative_delay (-5) 3 3 (by decide) (by decide)

/-! ## Debounce model, timer-handle level

This model tracks the host timer facility explicitly, to reason about
outstanding handles.  It embeds the cancel-then-reschedule shape shared by
useDebounce (effect cleanup clearTimeout(handler), then the next effect run
calls setTimeout) and by the inline debounce of useWindowSize,
CustomHooksExamples.jsx lines 373-393:

  let timeoutId = null;
  const handleResize = () => \x7b
    clearTimeout(timeoutId);
    timeoutId = setTimeout(() => \x7b setWindowSize(...); \x7d, 100);
  \x7d;
  ...
  return () => \x7b ...; clearTimeout(timeoutId); \x7d;

clearTimeout(null) and clearTimeout on an already-fired or already-cleared id
are no-ops in the host, which the cancel operation reflects. -/

/-- The host timer facility: a source of fresh handle ids and the list of
live (scheduled, not yet fired, not canceled) timers, each with its handle
id, fire time and captured value. -/
structure TimerSys (α : Type) where
  nextId : Nat
  live : List (Nat × Nat × α)
  deriving Repr, DecidableEq

/-- setTimeout: allocate a fresh handle firing at ft with value v. -/
def TimerSys.schedule {α : Type} (sys : TimerSys α) (ft : Nat) (v : α) :
    TimerSys α × Nat :=
  (⟨sys.nextId + 1, sys.live ++ [(sys.nextId, ft, v)]⟩, sys.nextId)

/-- clearTimeout: remove the timer with the given id; a null id or an id that
is no longer live is a no-op. -/
def TimerSys.cancel {α : Type} (sys : TimerSys α) : Option Nat → TimerSys α
  | none => sys
  | some i => ⟨sys.nextId, sys.live.filter fun e => e.1 != i⟩

/-- A debouncer instance holding its single timer-handle slot (the
timeoutId variable, or the effect's captured handler), the published
output and the record of fired callbacks. -/
structure DebouncerH (α : Type) where
  sys : TimerSys α
  timeoutId : Option Nat
  output : α
  emits : List (Nat × α)
  deriving Repr, DecidableEq

/-- Fresh instance: timeoutId starts null, nothing scheduled. -/
def dInit {α : Type} (v : α) : DebouncerH α := ⟨⟨0, []⟩, none, v, []⟩

/-- New input value at time t: clearTimeout on the stored handle, then
setTimeout for t + delay, storing the fresh handle (cancel then replace,
last-write-wins). -/
def dObserve {α : Type} (delay t : Nat) (v : α) (d : DebouncerH α) :
    DebouncerH α :=
  let sys1 := d.sys.cancel d.timeoutId
  let r := sys1.schedule (t + delay) v
  ⟨r.1, some r.2, d.output, d.emits⟩

/-- The host fires timer i: if it is live it is consumed and its callback
publishes the captured value; a dead id fires nothing. -/
def dFire {α : Type} (d : DebouncerH α) (i : Nat) : DebouncerH α :=
  match d.sys.live.find? (fun e => e.1 == i) with
  | some e => ⟨d.sys.cancel (some i), d.timeoutId, e.2.2, d.emits ++ [(e.2.1, e.2.2)]⟩
  | none => d

/-- Teardown (the unmount cleanup): clearTimeout on the stored handle. -/
def dTeardown {α : Type} (d : DebouncerH α) : DebouncerH α :=
  ⟨d.sys.cancel d.timeoutId, d.timeoutId, d.output, d.emits⟩

/-- One event of a debouncer's life. -/
inductive DEvent (α : Type) where
  | input (t : Nat) (v : α)
  | fire (i : Nat)
  | teardown
  deriving Repr

/-- Step a debouncer by one event. -/
def dStep {α : Type} (delay : Nat) (d : DebouncerH α) : DEvent α → DebouncerH α
  | DEvent.input t v => dObserve delay t v d
  | DEvent.fire i => dFire d i
  | DEvent.teardown => dTeardown d

/-- Run a debouncer through a list of events. -/
def dRun {α : Type} (delay : Nat) (d : DebouncerH α) : List (DEvent α) → DebouncerH α
  | [] => d
  | e :: es => dRun delay (dStep delay d e) es

/-- The single-pending-handle invariant: at most one live timer, and any live
timer is the one whose handle is stored in the timeoutId slot. -/
def DebouncerH.inv {α : Type} (d : DebouncerH α) : Prop :=
  d.sys.live.length ≤ 1 ∧ ∀ e ∈ d.sys.live, d.timeoutId = some e.1

/-! ### Handle lemmas -/

theorem cancel_stored_empties {α : Type} (d : DebouncerH α) (h : d.inv) :
    (d.sys.cancel d.timeoutId).live = [] := by
  cases hid : d.timeoutId with
  | none =>
    have : d.sys.live = [] := by
      cases hl : d.sys.live with
      | nil => rfl
      | cons e es =>
        have := h.2 e (by simp [hl])
        rw [hid] at this
        exact absurd this (by simp)
    simp [TimerSys.cancel, this]
  | some i =>
    simp only [TimerSys.cancel]
    rw [List.filter_eq_nil_iff]
    intro e he
    have := h.2 e he
    rw [hid] at this
    simp [Option.some.injEq] at this
    simp [this]

theorem dObserve_inv {α : Type} (delay t : Nat) (v : α) (d : DebouncerH α)
    (h : d.inv) : (dObserve delay t v d).inv := by
  have hemp := cancel_stored_empties d h
  constructor
  · simp [dObserve, TimerSys.schedule, hemp]
  · intro e he
    simp [dObserve, TimerSys.schedule, hemp] at he
    simp [dObserve, TimerSys.schedule, he]

theorem dFire_inv {α : Type} (i : Nat) (d : DebouncerH α) (h : d.inv) :
    (dFire d i).inv := by
  cases hf : d.sys.live.find? (fun e => e.1 == i) with
  | none => simpa [dFire, hf] using h
  | some e =>
    constructor
    · simp only [dFire, hf, TimerSys.cancel]
      exact le_trans (List.length_filter_le _ _) h.1
    · intro e' he'
      simp only [dFire, hf, TimerSys.cancel] at he' ⊢
      exact h.2 e' (List.mem_of_mem_filter he')

theorem dTeardown_inv {α : Type} (d : DebouncerH α) (h : d.inv) :
    (dTeardown d).inv := by
  have hemp := cancel_stored_empties d h
  constructor
  · simp [dTeardown, hemp]
  · intro e he
    rw [dTeardown] at he
    simp only at he
    rw [hemp] at he
    exact absurd he (by simp)

theorem dStep_inv {α : Type} (delay : Nat) (d : DebouncerH α) (e : DEvent α)
    (h : d.inv) : (dStep delay d e).inv := by
  cases e with
  | input t v => exact dObserve_inv delay t v d h
  | fire i => exact dFire_inv i d h
  | teardown => exact dTeardown_inv d h

theorem dRun_inv {α : Type} (delay : Nat) (es : List (DEvent α))
    (d : DebouncerH α) (h : d.inv) : (dRun delay d es).inv := by
  induction es generalizing d with
  | nil => exact h
  | cons e es ih => exact ih (dStep delay d e) (dStep_inv delay d e h)

theorem dInit_inv {α : Type} (v : α) : (dInit v).inv := by
  constructor
  · simp [dInit]
  · intro e he
    simp [dInit] at he

/-! ### Handle claim theorems -/

/-- C5: for every debouncer instance and every sequence of events from
instantiation, at most one timer handle is outstanding at any point: each new
input first cancels the stored handle and then schedules a replacement, and
the single-pending-handle invariant is preserved by every operation (input,
timer fire, teardown). -/
theorem single_pending_handle {α : Type} (delay : Nat) (v0 : α)
    (es : List (DEvent α)) :
    (dRun delay (dInit v0) es).sys.live.length ≤ 1 :=
  (dRun_inv delay es (dInit v0) (dInit_inv v0)).1

/-- Teardown twice equals teardown once at the timer-system level. -/
theorem cancel_cancel {α : Type} (sys : TimerSys α) (o : Option Nat) :
    (sys.cancel o).cancel o = sys.cancel o := by
  cases o with
  | none => rfl
  | some i => simp [TimerSys.cancel, List.filter_filter]

/-- C6: tearing down a debouncer that satisfies the handle invariant cancels
any pending timer synchronously, leaving zero live handles (nothing leaked);
afterwards no timer can fire, so the output and the emission record never
change after teardown; and teardown is idempotent, a second run being a
no-op. -/
theorem debounce_teardown_safety {α : Type} (d : DebouncerH α) (h : d.inv) :
    (dTeardown d).sys.live = [] ∧
    (∀ i, dFire (dTeardown d) i = dTeardown d) ∧
    dTeardown (dTeardown d) = dTeardown d ∧
    (dTeardown d).emits = d.emits ∧ (dTeardown d).output = d.output := by
  have hemp := cancel_stored_empties d h
  refine ⟨hemp, ?_, ?_, rfl, rfl⟩
  · intro i
    have hfind : (dTeardown d).sys.live.find? (fun e => e.1 == i) = none := by
      rw [dTeardown]
      simp only
      rw [hemp]
      rfl
    simp [dFire, hfind]
  · simp [dTeardown, cancel_cancel]

/-- Witness for C6: a debouncer with one pending timer, torn down. -/
theorem debounce_teardown_safety_witness :
    (dTeardown (dObserve 100 0 5 (dInit 3))).sys.live = [] ∧
    dFire (dTeardown (dObserve 100 0 5 (dInit 3))) 0 =
      dTeardown (dObserve 100 0 5 (dInit 3)) ∧
    dTeardown (dTeardown (dObserve 100 0 5 (dInit 3))) =
      dTeardown (dObserve 100 0 5 (dInit 3)) := by
  have h := debounce_teardown_safety (dObserve 100 0 5 (dInit 3))
    (dObserve_inv 100 0 5 (dInit 3) (dInit_inv 3))
  exact ⟨h.1, h.2.1 0, h.2.2.1⟩

end Spec2Proof
